import Mathlib

/-!
Shallow embedding of the umbra conversation-protocol engine
(crates umbra-sdk / umbra-types), together with theorems checking the
natural-language specification against the code.

The Rust sources embedded here are `umbra-sdk/src/client.rs`,
`umbra-sdk/src/crypto.rs`, `umbra-sdk/src/error.rs` and
`umbra-sdk/src/convos/private.rs`.  The protobuf-generated message types
(`umbra.types.rs`) are produced by the build script from `.proto` schemas
that are not part of the source tree; their record shapes are taken from
how `client.rs` constructs and consumes them, and their binary codec is
modelled from the spec (section 6, "Wire format") as a deterministic
self-delimiting encoding.
-/

namespace Umbra

/-- Wire bytes (`pub type Blob = Vec<u8>` in client.rs).  Bytes are
modelled as natural numbers. -/
abbrev Blob := List Nat

/-! ## Data model (umbra-types, shapes as used by client.rs) -/

/-- `ContentFrame { domain: u32, tag: u32, bytes }`. -/
structure ContentFrame where
  domain : Nat
  tag : Nat
  bytes : Blob
deriving DecidableEq

/-- `ConversationInvite { participants }`. -/
structure ConversationInvite where
  participants : List String
deriving DecidableEq

/-- `frame::FrameType`: the oneof inside a `Frame`. -/
inductive FrameType where
  | Content (cf : ContentFrame)
  | Invite (ci : ConversationInvite)
deriving DecidableEq

/-- Reliability metadata attached to a `Frame`; client.rs only ever
passes it through (`let _ = frame.reliability_info;`), so its fields are
irrelevant here and it is modelled as an opaque unit record. -/
structure ReliabilityInfo where
  unit : Unit
deriving DecidableEq

/-- `Frame { reliability_info: optional, frame_type: oneof }`. -/
structure Frame where
  reliability_info : Option ReliabilityInfo
  frame_type : Option FrameType
deriving DecidableEq

/-- `encrypted_bytes::Encryption`: the closed algorithm set used by
client.rs (`Reversed` for private sessions, `Plaintext` for inbox
bootstrap traffic). -/
inductive Encryption where
  | Reversed (encrypted_bytes : Blob)
  | Plaintext (bytes : Blob)
deriving DecidableEq

/-- `EncryptedBytes { encryption: Option<Encryption> }`. -/
structure EncryptedBytes where
  encryption : Option Encryption
deriving DecidableEq

/-- `Envelope { encrypted_bytes, conversation_id }` as used in client.rs. -/
structure Envelope where
  encrypted_bytes : Option EncryptedBytes
  conversation_id : String
deriving DecidableEq

/-- `TaggedPayload { protocol: u32, tag: u32, payload_bytes }`. -/
structure TaggedPayload where
  protocol : Nat
  tag : Nat
  payload_bytes : Blob
deriving DecidableEq

/-- `PayloadTags`: top-level payload discriminator used by
`UmbraClient::recv` (variants as matched in client.rs). -/
inductive PayloadTags where
  | Uknown
  | TagEnvelope
  | TagPublicFrame
deriving DecidableEq

/-- Modelled from the spec: the numeric values of the `PayloadTags`
protobuf enum are in the generated code, not in the source tree.  The
spec reserves every tag other than the Envelope tag, and protobuf enums
map every unlisted number to their zero/unknown variant, so `0` is
`Uknown`, the implemented Envelope tag is `1`, the reserved public-frame
tag is `2`, and every other number falls back to `Uknown`. -/
def PayloadTags.fromNat (n : Nat) : PayloadTags :=
  if n = 1 then .TagEnvelope
  else if n = 2 then .TagPublicFrame
  else .Uknown

/-- `UmbraError` (umbra-sdk/src/error.rs). -/
inductive UmbraError where
  | PublishError (s : String)
  | PollError (s : String)
  | EncodingError (s : String)
  | DecodingError (s : String)
  | UnexpectedError
  | TodoError
deriving DecidableEq

/-- Outcome of running code that may `panic!` / `unwrap` / `todo!`:
either a fatal abort with the panic message, or a normal return. -/
inductive PanicOr (α : Type) where
  | panicked (msg : String)
  | returned (a : α)
deriving DecidableEq

/-! ## Wire codec

Modelled from the spec: the binary codec is prost-generated from a
`.proto` schema that is not in the source tree.  The spec only requires
a deterministic, self-describing encoding with total decode/encode
round-trips (section 6 and section 8, "decode(encode(F)) == F"), which
this length-prefixed encoding provides. -/

/-- Length-prefixed byte string. -/
def encodeBlob (b : Blob) : Blob := b.length :: b

/-- Parse a length-prefixed byte string, returning it and the rest. -/
def parseBlob : Blob → Option (Blob × Blob)
  | [] => none
  | n :: rest =>
    if n ≤ rest.length then some (rest.take n, rest.drop n) else none

/-- Strings travel as their character codes, length-prefixed. -/
def encodeString (s : String) : Blob :=
  encodeBlob (s.data.map Char.toNat)

/-- Parse a length-prefixed string. -/
def parseString (l : Blob) : Option (String × Blob) :=
  match parseBlob l with
  | none => none
  | some (cs, rest) => some (String.mk (cs.map Char.ofNat), rest)

/-- A counted sequence of strings. -/
def encodeStringList (l : List String) : Blob :=
  l.length :: (l.map encodeString).flatten

/-- Parse `n` consecutive strings. -/
def parseStrings : Nat → Blob → Option (List String × Blob)
  | 0, rest => some ([], rest)
  | n + 1, l =>
    match parseString l with
    | none => none
    | some (s, rest) =>
      match parseStrings n rest with
      | none => none
      | some (ss, rest') => some (s :: ss, rest')

/-- Parse a counted sequence of strings. -/
def parseStringList : Blob → Option (List String × Blob)
  | [] => none
  | n :: rest => parseStrings n rest

def ContentFrame.encode (cf : ContentFrame) : Blob :=
  cf.domain :: cf.tag :: encodeBlob cf.bytes

def ContentFrame.parse : Blob → Option (ContentFrame × Blob)
  | d :: t :: rest =>
    match parseBlob rest with
    | none => none
    | some (b, rest') => some (⟨d, t, b⟩, rest')
  | _ => none

def Frame.encode (f : Frame) : Blob :=
  (match f.reliability_info with
   | none => [0]
   | some _ => [1]) ++
  (match f.frame_type with
   | none => [0]
   | some (.Content cf) => 1 :: cf.encode
   | some (.Invite ci) => 2 :: encodeStringList ci.participants)

def Frame.parse : Blob → Option (Frame × Blob)
  | [] => none
  | r :: rest =>
    match
      (match r with
       | 0 => some (none : Option ReliabilityInfo)
       | 1 => some (some ⟨()⟩)
       | _ => none)
    with
    | none => none
    | some ri =>
      match rest with
      | 0 :: rest' => some (⟨ri, none⟩, rest')
      | 1 :: rest' =>
        match ContentFrame.parse rest' with
        | none => none
        | some (cf, rest'') => some (⟨ri, some (.Content cf)⟩, rest'')
      | 2 :: rest' =>
        match parseStringList rest' with
        | none => none
        | some (ps, rest'') => some (⟨ri, some (.Invite ⟨ps⟩)⟩, rest'')
      | _ => none

/-- `Frame::decode`: a full-buffer parse, as prost performs. -/
def Frame.decode (l : Blob) : Option Frame :=
  match Frame.parse l with
  | some (f, []) => some f
  | _ => none

def Encryption.encode : Encryption → Blob
  | .Reversed b => 1 :: encodeBlob b
  | .Plaintext b => 2 :: encodeBlob b

def Encryption.parse : Blob → Option (Encryption × Blob)
  | 1 :: rest =>
    match parseBlob rest with
    | none => none
    | some (b, rest') => some (.Reversed b, rest')
  | 2 :: rest =>
    match parseBlob rest with
    | none => none
    | some (b, rest') => some (.Plaintext b, rest')
  | _ => none

def EncryptedBytes.encode (eb : EncryptedBytes) : Blob :=
  match eb.encryption with
  | none => [0]
  | some e => 1 :: e.encode

def EncryptedBytes.parse : Blob → Option (EncryptedBytes × Blob)
  | 0 :: rest => some (⟨none⟩, rest)
  | 1 :: rest =>
    match Encryption.parse rest with
    | none => none
    | some (e, rest') => some (⟨some e⟩, rest')
  | _ => none

def Envelope.encode (env : Envelope) : Blob :=
  (match env.encrypted_bytes with
   | none => [0]
   | some eb => 1 :: eb.encode) ++ encodeString env.conversation_id

def Envelope.parse : Blob → Option (Envelope × Blob)
  | 0 :: rest =>
    match parseString rest with
    | none => none
    | some (cid, rest') => some (⟨none, cid⟩, rest')
  | 1 :: rest =>
    match EncryptedBytes.parse rest with
    | none => none
    | some (eb, rest') =>
      match parseString rest' with
      | none => none
      | some (cid, rest'') => some (⟨some eb, cid⟩, rest'')
  | _ => none

/-- `Envelope::decode`: full-buffer parse. -/
def Envelope.decode (l : Blob) : Option Envelope :=
  match Envelope.parse l with
  | some (env, []) => some env
  | _ => none

def TaggedPayload.encode (tp : TaggedPayload) : Blob :=
  tp.protocol :: tp.tag :: encodeBlob tp.payload_bytes

/-- `TaggedPayload::decode`: full-buffer parse. -/
def TaggedPayload.decode : Blob → Option TaggedPayload
  | p :: t :: rest =>
    match parseBlob rest with
    | none => none
    | some (b, []) => some ⟨p, t, b⟩
    | some (_, _ :: _) => none
  | _ => none

/-- Modelled from the spec: `ToPayload` for `Envelope` lives in the
generated umbra-types code.  It wraps the encoded envelope in a
`TaggedPayload` carrying the protocol number and the Envelope tag (the
tag `UmbraClient::recv` dispatches to `handle_envelope`). -/
def Envelope.to_payload (env : Envelope) : TaggedPayload :=
  ⟨1, 1, env.encode⟩

/-! ## Codec round-trip lemmas -/

theorem parseBlob_encodeBlob (b r : Blob) :
    parseBlob (encodeBlob b ++ r) = some (b, r) := by
  simp [encodeBlob, parseBlob, List.take_left, List.drop_left]

theorem parseString_encodeString (s : String) (r : Blob) :
    parseString (encodeString s ++ r) = some (s, r) := by
  simp [encodeString, parseString, parseBlob_encodeBlob, List.map_map]
  have h : (s.data.map fun c => Char.ofNat c.toNat) = s.data := by
    simp [Char.ofNat_toNat]
  simp [Function.comp_def, h]

theorem parseStrings_encode (l : List String) (r : Blob) :
    parseStrings l.length ((l.map encodeString).flatten ++ r) = some (l, r) := by
  induction l generalizing r with
  | nil => simp [parseStrings]
  | cons s t ih =>
    simp [parseStrings, List.append_assoc, parseString_encodeString, ih]

theorem parseStringList_encode (l : List String) (r : Blob) :
    parseStringList (encodeStringList l ++ r) = some (l, r) := by
  simp [encodeStringList, parseStringList, parseStrings_encode]

theorem ContentFrame.parse_encode_frame_cf (cf : ContentFrame) (r : Blob) :
    ContentFrame.parse (cf.encode ++ r) = some (cf, r) := by
  simp [ContentFrame.encode, ContentFrame.parse, parseBlob_encodeBlob]

theorem Frame.parse_encode_frame (f : Frame) (r : Blob) :
    Frame.parse (f.encode ++ r) = some (f, r) := by
  obtain ⟨ri, ft⟩ := f
  cases ri with
  | none =>
    cases ft with
    | none => simp [Frame.encode, Frame.parse]
    | some v =>
      cases v with
      | Content cf =>
        simp [Frame.encode, Frame.parse, ContentFrame.parse_encode_frame_cf]
      | Invite ci =>
        simp [Frame.encode, Frame.parse, parseStringList_encode]
  | some u =>
    cases ft with
    | none => simp [Frame.encode, Frame.parse]
    | some v =>
      cases v with
      | Content cf =>
        simp [Frame.encode, Frame.parse, ContentFrame.parse_encode_frame_cf]
      | Invite ci =>
        simp [Frame.encode, Frame.parse, parseStringList_encode]

theorem Frame.decode_encode_frame (f : Frame) :
    Frame.decode f.encode = some f := by
  have h := Frame.parse_encode_frame f []
  simp at h
  simp [Frame.decode, h]

/-! ## Placeholder cipher (umbra-sdk/src/crypto.rs) -/

/-- `encrypt_reverse`: the placeholder cipher reverses the buffer. -/
def encrypt_reverse (buf : Blob) : Blob := buf.reverse

/-- `decrypt_reverse` delegates to `encrypt_reverse`. -/
def decrypt_reverse (buf : Blob) : Blob := encrypt_reverse buf

/-- Modelled from the spec: `hash_to_string` digests its input with the
external sha3 crate's SHA3-256 and hex-encodes the result.  The spec
only requires "a deterministic hash of the serialized frame", so the
external digest is modelled as a deterministic executable digest
function rendered to a string. -/
def hash_to_string (buf : Blob) : String :=
  toString (buf.foldl (fun h b => (h * 131 + b + 1) % 18446744073709551616) 7)

/-! ## Delivery service and conversations (client.rs)

The `DeliveryService` collaborator is external; for these theorems only
its response to the bytes handed to `send` matters, so it is modelled as
a pure response function `Blob → Except UmbraError Unit`. -/

/-- A delivery-service behaviour: the result its `send` returns for a
given wire message. -/
abbrev DS := Blob → Except UmbraError Unit

/-- Result of a `Conversation::send` call: the returned value (or panic)
together with the messages handed to the delivery service. -/
structure SendOutcome where
  result : PanicOr Blob
  dsCalls : List Blob
deriving DecidableEq

namespace PrivateConversation

/-- `PrivateConversation::encrypt`: encode the frame, reverse it, tag it
with the `Reversed` algorithm variant. -/
def encrypt (frame : Frame) : EncryptedBytes :=
  ⟨some (.Reversed (encrypt_reverse frame.encode))⟩

/-- `PrivateConversation::decrypt`: require the encryption field, require
the `Reversed` variant, un-reverse, decode a `Frame`. -/
def decrypt (enc_bytes : EncryptedBytes) : Except UmbraError Frame :=
  match enc_bytes.encryption with
  | none => .error (.DecodingError "")
  | some (.Reversed r) =>
    match Frame.decode (decrypt_reverse r) with
    | some f => .ok f
    | none => .error (.DecodingError "decode error")
  | some (.Plaintext _) => .error (.DecodingError "Unsupported Enc")

/-- `PrivateConversation::send` (client.rs): build a `Content` frame,
encrypt it, wrap it in an `Envelope` hinted with this conversation's id,
encode the tagged payload and hand it to the delivery service.  The
delivery result is `unwrap`ped, so a delivery error panics. -/
def send (ds : DS) (convo_id : String) (tag : Nat) (message : Blob) :
    SendOutcome :=
  let frame : Frame := ⟨none, some (.Content ⟨0, tag, message⟩)⟩
  let bytes :=
    (Envelope.mk (some (encrypt frame)) convo_id).to_payload.encode
  match ds bytes with
  | .ok _ => ⟨.returned bytes, [bytes]⟩
  | .error _ => ⟨.panicked "unwrap on DeliveryService send error", [bytes]⟩

/-- `PrivateConversation::recv`: decrypt, then return any `Content` or
`ConversationInvite` frame to the caller; a frame with no `frame_type`
is a decoding error. -/
def recv (enc_bytes : EncryptedBytes) : Except UmbraError (Option Frame) :=
  match decrypt enc_bytes with
  | .error e => .error e
  | .ok f =>
    match f.frame_type with
    | none => .error (.DecodingError "bad packet")
    | some (.Content _) => .ok (some f)
    | some (.Invite _) => .ok (some f)

end PrivateConversation

namespace InboxConversation

/-- `InboxConversation::encrypt`: plaintext passthrough tagged with the
`Plaintext` variant. -/
def encrypt (frame : Frame) : EncryptedBytes :=
  ⟨some (.Plaintext frame.encode)⟩

/-- `InboxConversation::decrypt`: require the encryption field, require
the `Plaintext` variant, decode a `Frame`. -/
def decrypt (enc_bytes : EncryptedBytes) : Except UmbraError Frame :=
  match enc_bytes.encryption with
  | none => .error (.DecodingError "")
  | some (.Plaintext b) =>
    match Frame.decode b with
    | some f => .ok f
    | none => .error (.DecodingError "decode error")
  | some (.Reversed _) => .error (.DecodingError "Unsupported Enc")

/-- `InboxConversation::send` panics unconditionally and never touches
the delivery service. -/
def send (_ds : DS) (_tag : Nat) (_message : Blob) : SendOutcome :=
  ⟨.panicked
    "This should never be called. Clients would never send messages to themselves",
   []⟩

/-- `InboxConversation::recv`: decrypt, drop `Content` frames (returning
`none`), surface `ConversationInvite` frames. -/
def recv (enc_bytes : EncryptedBytes) : Except UmbraError (Option Frame) :=
  match decrypt enc_bytes with
  | .error e => .error e
  | .ok f =>
    match f.frame_type with
    | none => .error (.DecodingError "bad packet")
    | some (.Content _) => .ok none
    | some (.Invite _) => .ok (some f)

end InboxConversation

/-! ## Conversation registry (UmbraState) -/

/-- A registered conversation: the dynamic `Conversation` trait object is
either a `PrivateConversation` or an `InboxConversation`, each carrying
its conversation id (their only state besides the shared delivery-service
handle). -/
inductive Convo where
  | privateConvo (convo_id : String)
  | inboxConvo (convo_id : String)
deriving DecidableEq

def Convo.convo_id : Convo → String
  | .privateConvo id => id
  | .inboxConvo id => id

/-- Variant dispatch of `Conversation::recv`. -/
def Convo.recv : Convo → EncryptedBytes → Except UmbraError (Option Frame)
  | .privateConvo _, enc => PrivateConversation.recv enc
  | .inboxConvo _, enc => InboxConversation.recv enc

/-- `topic_private_convo`: sort the addresses, join with `"|"`, prefix
with `"/private/"`.  Rust's `Vec::<String>::sort` orders strings
lexicographically; `strLeb` below is that order on character lists. -/
def strLeb : List Char → List Char → Bool
  | [], _ => true
  | _ :: _, [] => false
  | a :: as, b :: bs =>
    if a < b then true else if a = b then strLeb as bs else false

/-- Lexicographic string order, as `Vec::<String>::sort` uses. -/
def strLe (a b : String) : Bool := strLeb a.data b.data

/-- Stable insertion into a sorted list (the effect of `sort`). -/
def orderedInsertStr (a : String) : List String → List String
  | [] => [a]
  | b :: l => if strLe a b then a :: b :: l else b :: orderedInsertStr a l

/-- `addrs.sort()` modelled as a stable insertion sort under `strLe`. -/
def sortStrings : List String → List String
  | [] => []
  | a :: l => orderedInsertStr a (sortStrings l)

def topic_private_convo (addrs : List String) : String :=
  "/private/" ++ String.intercalate "|" (sortStrings addrs)

def topic_inbox_convo (addr : String) : String :=
  "/inbox/" ++ addr

/-- `UmbraState`: the conversation registry.  `HashMap<Addr, _>` is
modelled as an association list whose `insert` replaces the binding of an
existing key, exactly as `HashMap::insert` does. -/
structure UmbraState where
  convos : List (String × Convo)
deriving DecidableEq

/-- `HashMap::insert` on the underlying bindings: bind `k` to `v`,
replacing an existing binding of `k`. -/
def insertList (k : String) (v : Convo) : List (String × Convo) → List (String × Convo)
  | [] => [(k, v)]
  | (k', v') :: rest =>
    if k' = k then (k, v) :: rest else (k', v') :: insertList k v rest

/-- `HashMap::get` on the underlying bindings. -/
def lookupList (k : String) : List (String × Convo) → Option Convo
  | [] => none
  | (k', v) :: rest => if k' = k then some v else lookupList k rest

namespace UmbraState

/-- `HashMap::insert`: bind `k` to `v`, replacing an existing binding. -/
def insertConvo (st : UmbraState) (k : String) (v : Convo) : UmbraState :=
  ⟨insertList k v st.convos⟩

/-- `UmbraState::get_conversation`: `HashMap::get` + clone. -/
def get_conversation (st : UmbraState) (addr : String) : Option Convo :=
  lookupList addr st.convos

/-- `UmbraState::create_conversation`: derive the private topic, insert a
fresh `PrivateConversation` under it (unconditional `HashMap::insert`),
then look the id up again and return the result. -/
def create_conversation (st : UmbraState) (addrs : List String) :
    UmbraState × Option Convo :=
  let convo_id := topic_private_convo addrs
  let st' := st.insertConvo convo_id (.privateConvo convo_id)
  (st', st'.get_conversation convo_id)

/-- `UmbraState::create_inbox_convo`. -/
def create_inbox_convo (st : UmbraState) (addr : String) :
    UmbraState × Option Convo :=
  let convo_id := topic_inbox_convo addr
  let st' := st.insertConvo convo_id (.inboxConvo convo_id)
  (st', st'.get_conversation convo_id)

end UmbraState

/-! ## Client orchestrator (UmbraClient) -/

/-- Build the `ConversationInvite` frame.  Modelled from the spec: the
`ToFrame` impl for `ConversationInvite` lives in the generated
umbra-types code; the spec says the invite type is lifted into a `Frame`
(client.rs calls `ConversationInvite::new(addrs).to_frame(None)`). -/
def inviteFrame (participants : List String) : Frame :=
  ⟨none, some (.Invite ⟨participants⟩)⟩

/-- Result of `handle_envelope`: the registry afterwards, plus the
`(conversation_id, ContentFrame)` handler invocations it performed.  The
handler list itself is only read, never written, by this code path;
handlers are identified by their position in the list. -/
structure HandleResult where
  state : UmbraState
  events : List (String × ContentFrame)
deriving DecidableEq

/-- `UmbraClient::send_frame`: plaintext-encrypt the frame, envelope it
under the given conversation id, encode the tagged payload, and return
the delivery service's result (errors propagate to the caller). -/
def UmbraClient.send_frame (ds : DS) (convo_id : String) (frame : Frame) :
    Except UmbraError Unit :=
  let encrypted : EncryptedBytes := ⟨some (.Plaintext frame.encode)⟩
  let bytes := (Envelope.mk (some encrypted) convo_id).to_payload.encode
  ds bytes

/-- `UmbraClient::create_conversation`: register a private conversation
for `[self, addr]`, then send an invite frame to the remote inbox topic;
a missing registry entry is `UnexpectedError` and a delivery failure
propagates, both as synchronous error results. -/
def UmbraClient.create_conversation (self_addr : String) (ds : DS)
    (st : UmbraState) (addr : String) :
    UmbraState × Except UmbraError Convo :=
  let topic := "/inbox/" ++ addr
  let addrs := [self_addr, addr]
  let res := UmbraState.create_conversation st addrs
  match res.2 with
  | none => (res.1, .error .UnexpectedError)
  | some convo =>
    match UmbraClient.send_frame ds topic (inviteFrame addrs) with
    | .ok _ => (res.1, .ok convo)
    | .error e => (res.1, .error e)

/-- `UmbraClient::handle_envelope`: require encrypted bytes, look the
hint up in the registry (silently dropping the message when absent),
run the conversation's `recv`, then dispatch: a `Content` frame goes to
every registered handler, a `ConversationInvite` re-derives and registers
the private conversation.  The `frame.frame_type.as_ref().unwrap()` is a
potential panic. -/
def UmbraClient.handle_envelope (st : UmbraState) (handlers : List Unit)
    (payload : Envelope) : PanicOr (Except UmbraError HandleResult) :=
  match payload.encrypted_bytes with
  | none => .returned (.error (.DecodingError "No encrypted bytes found"))
  | some enc =>
    match st.get_conversation payload.conversation_id with
    | none => .returned (.ok ⟨st, []⟩)
    | some convo =>
      match convo.recv enc with
      | .error e => .returned (.error e)
      | .ok none => .returned (.ok ⟨st, []⟩)
      | .ok (some frame) =>
        match frame.frame_type with
        | none => .panicked "called unwrap on None"
        | some (.Content cf) =>
          .returned (.ok ⟨st, handlers.map fun _ => (convo.convo_id, cf)⟩)
        | some (.Invite ci) =>
          .returned (.ok ⟨(UmbraState.create_conversation st ci.participants).1, []⟩)

/-- `UmbraClient::recv`: decode the `TaggedPayload`, dispatch on its tag.
Only the Envelope tag is implemented; the `Uknown` and `TagPublicFrame`
arms are `todo!()`, which panics. -/
def UmbraClient.recv (st : UmbraState) (handlers : List Unit) (bytes : Blob) :
    PanicOr (Except UmbraError HandleResult) :=
  match TaggedPayload.decode bytes with
  | none => .returned (.error (.DecodingError "decode error"))
  | some payload =>
    match PayloadTags.fromNat payload.tag with
    | .Uknown => .panicked "not yet implemented"
    | .TagEnvelope =>
      match Envelope.decode payload.payload_bytes with
      | none => .returned (.error (.DecodingError "decode error"))
      | some envelope => UmbraClient.handle_envelope st handlers envelope
    | .TagPublicFrame => .panicked "not yet implemented"

/-! ## Reliable-delivery iteration (umbra-sdk/src/convos/private.rs)

`convos/private.rs` is the iteration of `PrivateConversation` that wraps
every outbound content frame in `ReliableBytes`.  It builds against the
umbra-types layout with `base::ReliableBytes`, `PrivateV1Frame` and an
envelope carrying a salt; those message shapes are embedded here with the
same modelled codec as above. -/

/-- `private_v1_frame::FrameType`: `Content` or `Placeholder`. -/
inductive PrivateV1FrameType where
  | Content (cf : ContentFrame)
  | Placeholder
deriving DecidableEq

/-- `PrivateV1Frame { conversation_id, frame_type }`. -/
structure PrivateV1Frame where
  conversation_id : String
  frame_type : Option PrivateV1FrameType
deriving DecidableEq

/-- `ReliableBytes { message_id, channel_id, lamport_timestamp,
causal_history, bloom_filter, content }`. -/
structure ReliableBytes where
  message_id : String
  channel_id : String
  lamport_timestamp : Nat
  causal_history : List String
  bloom_filter : Blob
  content : Option Blob
deriving DecidableEq

/-- `Envelope` in the private_v1 layout: hint plus salt (spec section 3). -/
structure EnvelopeV1 where
  encrypted_bytes : Option EncryptedBytes
  conversation_id : String
  salt : Nat
deriving DecidableEq

/-- `ToEnvelope::to_envelope(convo_id, salt)` on `EncryptedBytes`. -/
def EncryptedBytes.to_envelope (eb : EncryptedBytes) (convo_id : String)
    (salt : Nat) : EnvelopeV1 :=
  ⟨some eb, convo_id, salt⟩

def PrivateV1Frame.encode (f : PrivateV1Frame) : Blob :=
  encodeString f.conversation_id ++
  (match f.frame_type with
   | none => [0]
   | some (.Content cf) => 1 :: cf.encode
   | some .Placeholder => [2])

def PrivateV1Frame.parse (l : Blob) : Option (PrivateV1Frame × Blob) :=
  match parseString l with
  | none => none
  | some (cid, rest) =>
    match rest with
    | 0 :: rest' => some (⟨cid, none⟩, rest')
    | 1 :: rest' =>
      match ContentFrame.parse rest' with
      | none => none
      | some (cf, rest'') => some (⟨cid, some (.Content cf)⟩, rest'')
    | 2 :: rest' => some (⟨cid, some .Placeholder⟩, rest')
    | _ => none

/-- `PrivateV1Frame::decode`: full-buffer parse. -/
def PrivateV1Frame.decode (l : Blob) : Option PrivateV1Frame :=
  match PrivateV1Frame.parse l with
  | some (f, []) => some f
  | _ => none

def ReliableBytes.encode (rb : ReliableBytes) : Blob :=
  encodeString rb.message_id ++ encodeString rb.channel_id ++
  rb.lamport_timestamp :: encodeStringList rb.causal_history ++
  encodeBlob rb.bloom_filter ++
  (match rb.content with
   | none => [0]
   | some b => 1 :: encodeBlob b)

def ReliableBytes.parse (l : Blob) : Option (ReliableBytes × Blob) :=
  match parseString l with
  | none => none
  | some (mid, r1) =>
    match parseString r1 with
    | none => none
    | some (cid, r2) =>
      match r2 with
      | [] => none
      | ts :: r3 =>
        match parseStringList r3 with
        | none => none
        | some (ch, r4) =>
          match parseBlob r4 with
          | none => none
          | some (bf, r5) =>
            match r5 with
            | 0 :: r6 => some (⟨mid, cid, ts, ch, bf, none⟩, r6)
            | 1 :: r6 =>
              match parseBlob r6 with
              | none => none
              | some (c, r7) => some (⟨mid, cid, ts, ch, bf, some c⟩, r7)
            | _ => none

/-- `ReliableBytes::decode`: full-buffer parse. -/
def ReliableBytes.decode (l : Blob) : Option ReliableBytes :=
  match ReliableBytes.parse l with
  | some (rb, []) => some rb
  | _ => none

/-- `EnvelopeV1` encoding (same modelled codec family). -/
def EnvelopeV1.encode (env : EnvelopeV1) : Blob :=
  (match env.encrypted_bytes with
   | none => [0]
   | some eb => 1 :: eb.encode) ++
  encodeString env.conversation_id ++ [env.salt]

namespace PrivateConversationV1

/-- `PrivateConversation::encrypt` (convos/private.rs): plaintext slot. -/
def encrypt (frame : Blob) : EncryptedBytes :=
  ⟨some (.Plaintext frame)⟩

/-- `PrivateConversation::decrypt` (convos/private.rs): the encryption
field is `unwrap`ped (panic when absent), the `Plaintext` payload is
decoded as `ReliableBytes`. -/
def decrypt (enc_bytes : EncryptedBytes) :
    PanicOr (Except UmbraError ReliableBytes) :=
  match enc_bytes.encryption with
  | none => .panicked "called unwrap on None"
  | some (.Plaintext b) =>
    match ReliableBytes.decode b with
    | some rb => .returned (.ok rb)
    | none => .returned (.error (.DecodingError "decode error"))
  | some (.Reversed _) =>
    .returned (.error (.DecodingError "Unsupported Enc"))

/-- `PrivateConversation::send` (convos/private.rs): build a
`PrivateV1Frame` content frame, wrap its encoding in `ReliableBytes`
whose `message_id` is `hash_to_string` of the encoded frame, encrypt,
envelope with salt 0, and hand the bytes to the delivery service
(`unwrap`ping its result). -/
def send (ds : DS) (convo_id : String) (tag : Nat) (message : Blob) :
    SendOutcome × EnvelopeV1 :=
  let frame : PrivateV1Frame := ⟨convo_id, some (.Content ⟨0, tag, message⟩)⟩
  let encoded_frame := frame.encode
  let reliable_bytes : ReliableBytes :=
    ⟨hash_to_string encoded_frame, convo_id, 0, [], [], some encoded_frame⟩
  let env := (encrypt reliable_bytes.encode).to_envelope convo_id 0
  let bytes := env.encode
  match ds bytes with
  | .ok _ => (⟨.returned bytes, [bytes]⟩, env)
  | .error _ => (⟨.panicked "unwrap on DeliveryService send error", [bytes]⟩, env)

end PrivateConversationV1

/-! ## Helper lemmas: string order and topic derivation -/

theorem strLeb_total (x y : List Char) :
    strLeb x y = true ∨ strLeb y x = true := by
  induction x generalizing y with
  | nil => left; rfl
  | cons a as ih =>
    cases y with
    | nil => right; rfl
    | cons b bs =>
      rcases lt_trichotomy a b with h | h | h
      · left; simp [strLeb, h]
      · subst h
        rcases ih bs with h' | h'
        · left; simp [strLeb, h']
        · right; simp [strLeb, h']
      · right; simp [strLeb, h]

theorem strLeb_antisymm (x y : List Char) (h1 : strLeb x y = true)
    (h2 : strLeb y x = true) : x = y := by
  induction x generalizing y with
  | nil =>
    cases y with
    | nil => rfl
    | cons b bs => simp [strLeb] at h2
  | cons a as ih =>
    cases y with
    | nil => simp [strLeb] at h1
    | cons b bs =>
      rcases lt_trichotomy a b with h | h | h
      · have hba : ¬ b < a := lt_asymm h
        have hne : b ≠ a := ne_of_gt h
        simp [strLeb, hba, hne] at h2
      · subst h
        simp [strLeb] at h1 h2
        rw [ih bs h1 h2]
      · have hab : ¬ a < b := lt_asymm h
        have hne : a ≠ b := ne_of_gt h
        simp [strLeb, hab, hne] at h1

theorem strLe_total (a b : String) : strLe a b = true ∨ strLe b a = true :=
  strLeb_total a.data b.data

theorem strLe_antisymm (a b : String) (h1 : strLe a b = true)
    (h2 : strLe b a = true) : a = b :=
  String.ext (strLeb_antisymm a.data b.data h1 h2)

theorem sortStrings_pair (a b : String) :
    sortStrings [a, b] = sortStrings [b, a] := by
  simp only [sortStrings, orderedInsertStr]
  rcases h1 : strLe a b with _ | _ <;> rcases h2 : strLe b a with _ | _
  · rcases strLe_total a b with h | h
    · rw [h1] at h; cases h
    · rw [h2] at h; cases h
  · simp
  · simp
  · rw [strLe_antisymm a b h1 h2]

/-- The spec's formula for a private conversation id (section 6, "Hint
formats"): `"/private/" + sorted(addr_a, addr_b).join("|")`, written for
a concrete pair. -/
def spec_private_conversation_id (a b : String) : String :=
  "/private/" ++ (if strLe a b then a ++ "|" ++ b else b ++ "|" ++ a)

theorem topic_private_convo_pair (a b : String) :
    topic_private_convo [a, b] = spec_private_conversation_id a b := by
  simp only [topic_private_convo, spec_private_conversation_id, sortStrings,
    orderedInsertStr]
  rcases h : strLe a b with _ | _ <;> simp <;> rfl

theorem topic_private_ne_inbox (addrs : List String) (addr : String) :
    topic_private_convo addrs ≠ topic_inbox_convo addr := by
  intro h
  have hd := congrArg String.data h
  rw [topic_private_convo, topic_inbox_convo, String.data_append,
    String.data_append] at hd
  have h1 : "/private/".data = ['/', 'p', 'r', 'i', 'v', 'a', 't', 'e', '/'] := rfl
  have h2 : "/inbox/".data = ['/', 'i', 'n', 'b', 'o', 'x', '/'] := rfl
  rw [h1, h2] at hd
  simp at hd

/-! ## Helper lemmas: registry -/

theorem lookupList_insertList_self (k : String) (v : Convo)
    (l : List (String × Convo)) :
    lookupList k (insertList k v l) = some v := by
  induction l with
  | nil => simp [insertList, lookupList]
  | cons p rest ih =>
    obtain ⟨k', v'⟩ := p
    by_cases h : k' = k
    · simp [insertList, h, lookupList]
    · simp [insertList, h, lookupList, ih]

theorem lookupList_insertList_ne (k k' : String) (v : Convo)
    (l : List (String × Convo)) (h : k ≠ k') :
    lookupList k' (insertList k v l) = lookupList k' l := by
  induction l with
  | nil => simp [insertList, lookupList, h]
  | cons p rest ih =>
    obtain ⟨k'', v''⟩ := p
    by_cases h2 : k'' = k
    · subst h2
      simp [insertList, lookupList, h]
    · simp [insertList, h2, lookupList, ih]

theorem insertList_insertList (k : String) (v : Convo)
    (l : List (String × Convo)) :
    insertList k v (insertList k v l) = insertList k v l := by
  induction l with
  | nil => simp [insertList]
  | cons p rest ih =>
    obtain ⟨k', v'⟩ := p
    by_cases h : k' = k
    · simp [insertList, h]
    · simp [insertList, h, ih]

theorem insertList_of_lookupList (k : String) (v : Convo)
    (l : List (String × Convo)) (h : lookupList k l = some v) :
    insertList k v l = l := by
  induction l with
  | nil => simp [lookupList] at h
  | cons p rest ih =>
    obtain ⟨k', v'⟩ := p
    by_cases h2 : k' = k
    · subst h2
      simp [lookupList] at h
      simp [insertList, h]
    · simp [lookupList, h2] at h
      simp [insertList, h2, ih h]

/-- Number of bindings of key `k` in the registry. -/
def countKey (k : String) (l : List (String × Convo)) : Nat :=
  (l.filter fun p => p.1 = k).length

theorem countKey_eq_zero (k : String) (l : List (String × Convo))
    (h : k ∉ l.map Prod.fst) : countKey k l = 0 := by
  induction l with
  | nil => rfl
  | cons p rest ih =>
    obtain ⟨k', v'⟩ := p
    rw [List.map_cons, List.mem_cons] at h
    push_neg at h
    have hk : ¬ (k' = k) := fun hc => h.1 (hc ▸ rfl)
    have ht := ih h.2
    simpa [countKey, List.filter_cons, hk] using ht

theorem countKey_insertList (k : String) (v : Convo)
    (l : List (String × Convo)) (h : (l.map Prod.fst).Nodup) :
    countKey k (insertList k v l) = 1 := by
  induction l with
  | nil => simp [insertList, countKey, List.filter]
  | cons p rest ih =>
    obtain ⟨k', v'⟩ := p
    rw [List.map_cons, List.nodup_cons] at h
    by_cases h2 : k' = k
    · subst h2
      have ht := countKey_eq_zero k' rest h.1
      simp only [insertList, if_pos rfl]
      simpa [countKey, List.filter_cons] using ht
    · have ht := ih h.2
      simpa [insertList, h2, countKey, List.filter_cons] using ht

/-! ## Helper lemmas: V1 codec round-trips -/

theorem PrivateV1Frame.parse_encode_frame_v1 (f : PrivateV1Frame) (r : Blob) :
    PrivateV1Frame.parse (f.encode ++ r) = some (f, r) := by
  obtain ⟨cid, ft⟩ := f
  cases ft with
  | none =>
    simp [PrivateV1Frame.encode, PrivateV1Frame.parse, List.append_assoc,
      parseString_encodeString]
  | some v =>
    cases v with
    | Content cf =>
      simp [PrivateV1Frame.encode, PrivateV1Frame.parse, List.append_assoc,
        parseString_encodeString, ContentFrame.parse_encode_frame_cf]
    | Placeholder =>
      simp [PrivateV1Frame.encode, PrivateV1Frame.parse, List.append_assoc,
        parseString_encodeString]

theorem PrivateV1Frame.decode_encode_frame_v1 (f : PrivateV1Frame) :
    PrivateV1Frame.decode f.encode = some f := by
  have h := PrivateV1Frame.parse_encode_frame_v1 f []
  simp at h
  simp [PrivateV1Frame.decode, h]

theorem ReliableBytes.parse_encode_rb (rb : ReliableBytes) (r : Blob) :
    ReliableBytes.parse (rb.encode ++ r) = some (rb, r) := by
  obtain ⟨mid, cid, ts, ch, bf, c⟩ := rb
  cases c with
  | none =>
    simp [ReliableBytes.encode, ReliableBytes.parse, List.append_assoc,
      parseString_encodeString, parseStringList_encode, parseBlob_encodeBlob]
  | some b =>
    simp [ReliableBytes.encode, ReliableBytes.parse, List.append_assoc,
      parseString_encodeString, parseStringList_encode, parseBlob_encodeBlob]

theorem ReliableBytes.decode_encode_rb (rb : ReliableBytes) :
    ReliableBytes.decode rb.encode = some rb := by
  have h := ReliableBytes.parse_encode_rb rb []
  simp at h
  simp [ReliableBytes.decode, h]

/-! ## Helper lemmas: conversation receive paths -/

theorem inbox_recv_encrypt_invite (ps : List String) :
    InboxConversation.recv (InboxConversation.encrypt (inviteFrame ps)) =
      .ok (some (inviteFrame ps)) := by
  simp [InboxConversation.recv, InboxConversation.encrypt,
    InboxConversation.decrypt, Frame.decode_encode_frame, inviteFrame]

/-! ## Claim theorems -/

/-- C5: for all address pairs (a, b) the derived private conversation id
is symmetric, equals "/private/" followed by the lexicographically sorted
pair joined with "|", and is distinct from every inbox id of the form
"/inbox/" + addr. -/
theorem conversation_id_symmetric_and_namespaced :
    (∀ a b : String, topic_private_convo [a, b] = topic_private_convo [b, a]) ∧
    (∀ a b : String, topic_private_convo [a, b] = spec_private_conversation_id a b) ∧
    (∀ a b c : String, topic_private_convo [a, b] ≠ topic_inbox_convo c) := by
  refine ⟨?_, ?_, ?_⟩
  · intro a b
    unfold topic_private_convo
    rw [sortStrings_pair]
  · intro a b
    exact topic_private_convo_pair a b
  · intro a b c
    exact topic_private_ne_inbox [a, b] c

/-- C8: `send` on an Inbox conversation always panics (signals caller
misuse fatally), hands nothing to the delivery service, and never
returns normally. -/
theorem inbox_send_always_panics :
    ∀ (ds : DS) (tag : Nat) (message : Blob),
      (InboxConversation.send ds tag message).result =
        PanicOr.panicked
          "This should never be called. Clients would never send messages to themselves" ∧
      (InboxConversation.send ds tag message).dsCalls = [] := by
  intro ds tag message
  exact ⟨rfl, rfl⟩

/-- C9: the placeholder cipher is an involution, and a private
conversation's decrypt inverts its encrypt: the round trip through the
`Reversed` variant returns the original frame. -/
theorem reverse_cipher_involution_roundtrip :
    (∀ b : Blob, decrypt_reverse (encrypt_reverse b) = b) ∧
    (∀ f : Frame,
      PrivateConversation.decrypt (PrivateConversation.encrypt f) = .ok f) := by
  constructor
  · intro b
    simp [decrypt_reverse, encrypt_reverse]
  · intro f
    simp [PrivateConversation.encrypt, PrivateConversation.decrypt,
      decrypt_reverse, encrypt_reverse, Frame.decode_encode_frame]

/-- C10: a well-formed envelope whose conversation hint matches no
registered conversation is silently dropped: `handle_envelope` returns
Ok, the registry is unchanged, and no handler is invoked. -/
theorem handle_envelope_unknown_convo_noop :
    ∀ (st : UmbraState) (handlers : List Unit) (env : Envelope)
      (enc : EncryptedBytes),
      env.encrypted_bytes = some enc →
      st.get_conversation env.conversation_id = none →
      UmbraClient.handle_envelope st handlers env =
        .returned (.ok ⟨st, []⟩) := by
  intro st handlers env enc h1 h2
  simp [UmbraClient.handle_envelope, h1, h2]

/-- C10 witness: a concrete one-handler client with an empty registry
drops an envelope hinted at the unregistered id "x". -/
theorem handle_envelope_unknown_convo_noop_witness :
    (Envelope.mk (some ⟨none⟩) "x").encrypted_bytes = some ⟨none⟩ ∧
    (UmbraState.mk []).get_conversation
      (Envelope.mk (some ⟨none⟩) "x").conversation_id = none ∧
    UmbraClient.handle_envelope ⟨[]⟩ [()] ⟨some ⟨none⟩, "x"⟩ =
      .returned (.ok ⟨⟨[]⟩, []⟩) := by
  have h1 : (Envelope.mk (some ⟨none⟩) "x").encrypted_bytes = some ⟨none⟩ := rfl
  have h2 : (UmbraState.mk []).get_conversation
      (Envelope.mk (some ⟨none⟩) "x").conversation_id = none := rfl
  exact ⟨h1, h2, handle_envelope_unknown_convo_noop ⟨[]⟩ [()] ⟨some ⟨none⟩, "x"⟩ ⟨none⟩ h1 h2⟩

/-- C3: the receive path does NOT skip or log non-Envelope protocol tags
non-fatally: both reserved tag arms of `UmbraClient::recv` are `todo!()`,
which panics and kills the receive thread.  Evaluated here at the two
failing inputs: a `TaggedPayload` carrying the reserved public-frame tag
2 and one carrying the unknown tag 0. -/
theorem recv_reserved_tag_panics :
    UmbraClient.recv ⟨[]⟩ [] (TaggedPayload.encode ⟨1, 2, []⟩) =
      .panicked "not yet implemented" ∧
    UmbraClient.recv ⟨[]⟩ [] (TaggedPayload.encode ⟨1, 0, []⟩) =
      .panicked "not yet implemented" ∧
    TaggedPayload.decode (TaggedPayload.encode ⟨1, 2, []⟩) = some ⟨1, 2, []⟩ ∧
    PayloadTags.fromNat 2 = .TagPublicFrame ∧
    PayloadTags.fromNat 0 = .Uknown := by
  exact ⟨rfl, rfl, rfl, rfl, rfl⟩

/-- C6: a conversation's decrypt returns a `DecodingError` exactly when
the encryption field is absent, or the algorithm variant differs from the
one that conversation kind expects (`Reversed` for private, `Plaintext`
for inbox), or the decrypted bytes fail to parse as a `Frame`; otherwise
it returns the decoded frame. -/
theorem decrypt_error_characterization :
    ∀ eb : EncryptedBytes,
      (∀ f : Frame, PrivateConversation.decrypt eb = .ok f ↔
        ∃ b, eb.encryption = some (.Reversed b) ∧
          Frame.decode (decrypt_reverse b) = some f) ∧
      ((∃ s, PrivateConversation.decrypt eb = .error (.DecodingError s)) ↔
        (eb.encryption = none ∨ (∃ b, eb.encryption = some (.Plaintext b)) ∨
          ∃ b, eb.encryption = some (.Reversed b) ∧
            Frame.decode (decrypt_reverse b) = none)) ∧
      (∀ f : Frame, InboxConversation.decrypt eb = .ok f ↔
        ∃ b, eb.encryption = some (.Plaintext b) ∧ Frame.decode b = some f) ∧
      ((∃ s, InboxConversation.decrypt eb = .error (.DecodingError s)) ↔
        (eb.encryption = none ∨ (∃ b, eb.encryption = some (.Reversed b)) ∨
          ∃ b, eb.encryption = some (.Plaintext b) ∧ Frame.decode b = none)) := by
  intro eb
  obtain ⟨enc⟩ := eb
  cases enc with
  | none =>
    simp [PrivateConversation.decrypt, InboxConversation.decrypt]
  | some e =>
    cases e with
    | Reversed b =>
      cases hdec : Frame.decode (decrypt_reverse b) with
      | none =>
        simp [PrivateConversation.decrypt, InboxConversation.decrypt, hdec]
      | some f' =>
        simp [PrivateConversation.decrypt, InboxConversation.decrypt, hdec]
    | Plaintext b =>
      cases hdec : Frame.decode b with
      | none =>
        simp [PrivateConversation.decrypt, InboxConversation.decrypt, hdec]
      | some f' =>
        simp [PrivateConversation.decrypt, InboxConversation.decrypt, hdec]

/-- C7: for every successfully decrypted frame, `InboxConversation::recv`
returns the frame iff it is a `ConversationInvite`; a `Content` frame
yields `none` (dropped, never propagated). -/
theorem inbox_recv_invite_only :
    ∀ (eb : EncryptedBytes) (f : Frame),
      InboxConversation.decrypt eb = .ok f →
      ((InboxConversation.recv eb = .ok (some f) ↔
        ∃ ci, f.frame_type = some (.Invite ci)) ∧
      (∀ cf, f.frame_type = some (.Content cf) →
        InboxConversation.recv eb = .ok none)) := by
  intro eb f h
  cases hft : f.frame_type with
  | none => simp [InboxConversation.recv, h, hft]
  | some v =>
    cases v with
    | Content cf => simp [InboxConversation.recv, h, hft]
    | Invite ci => simp [InboxConversation.recv, h, hft]

/-- C7 witness: decrypting a plaintext-wrapped invite frame succeeds, and
`recv` surfaces exactly that invite frame. -/
theorem inbox_recv_invite_only_witness :
    InboxConversation.decrypt (InboxConversation.encrypt (inviteFrame ["a"])) =
      .ok (inviteFrame ["a"]) ∧
    (InboxConversation.recv (InboxConversation.encrypt (inviteFrame ["a"])) =
      .ok (some (inviteFrame ["a"])) ↔
      ∃ ci, (inviteFrame ["a"]).frame_type = some (.Invite ci)) := by
  have h : InboxConversation.decrypt
      (InboxConversation.encrypt (inviteFrame ["a"])) = .ok (inviteFrame ["a"]) := by
    simp [InboxConversation.decrypt, InboxConversation.encrypt,
      Frame.decode_encode_frame, inviteFrame]
  exact ⟨h, (inbox_recv_invite_only _ _ h).1⟩

/-- C4 counterexample: a delivery-service failure during a private
conversation's `send` is NOT propagated as an error result — the code
`unwrap`s the delivery result, so it panics.  Evaluated at a concrete
failing delivery service. -/
theorem private_send_panics_on_ds_error :
    (PrivateConversation.send (fun _ => .error (.PublishError "transport down"))
        "/private/a|b" 5 [1, 2]).result =
      .panicked "unwrap on DeliveryService send error" := by
  rfl

/-- C4 (amended): delivery-service errors in `send_frame` and
`create_conversation` are propagated synchronously as error results to
the caller, but a delivery error during a conversation's `send` escalates
to a fatal panic (the trait returns raw bytes, so `send` can only return
normally or panic — never an error result). -/
theorem outbound_error_propagation :
    ∀ (ds : DS) (convo_id self_addr addr : String) (frame : Frame)
      (st : UmbraState) (e : UmbraError) (tag : Nat) (message : Blob),
      (UmbraClient.send_frame ds convo_id frame =
        ds ((Envelope.mk (some ⟨some (.Plaintext frame.encode)⟩)
          convo_id).to_payload.encode)) ∧
      (UmbraClient.send_frame ds ("/inbox/" ++ addr)
          (inviteFrame [self_addr, addr]) = .error e →
        (UmbraClient.create_conversation self_addr ds st addr).2 = .error e) ∧
      (ds ((Envelope.mk
            (some (PrivateConversation.encrypt
              ⟨none, some (.Content ⟨0, tag, message⟩)⟩))
            convo_id).to_payload.encode) = .error e →
        (PrivateConversation.send ds convo_id tag message).result =
          .panicked "unwrap on DeliveryService send error") ∧
      ((∃ r, (PrivateConversation.send ds convo_id tag message).result =
          .returned r) ∨
        (PrivateConversation.send ds convo_id tag message).result =
          .panicked "unwrap on DeliveryService send error") := by
  intro ds convo_id self_addr addr frame st e tag message
  refine ⟨rfl, ?_, ?_, ?_⟩
  · intro h
    simp [UmbraClient.create_conversation, UmbraState.create_conversation,
      UmbraState.insertConvo, UmbraState.get_conversation,
      lookupList_insertList_self, h]
  · intro h
    simp [PrivateConversation.send, h]
  · simp only [PrivateConversation.send]
    split
    · left; exact ⟨_, rfl⟩
    · right; rfl

/-- C4 witness: with a delivery service that always fails with
`PublishError "down"`, `send_frame` returns exactly that error,
`create_conversation` propagates it, and the private conversation's
`send` panics. -/
theorem outbound_error_propagation_witness :
    UmbraClient.send_frame (fun _ => .error (.PublishError "down"))
        "/private/a|b" (inviteFrame ["a", "b"]) =
      (fun _ => (.error (.PublishError "down") : Except UmbraError Unit))
        ((Envelope.mk (some ⟨some (.Plaintext (inviteFrame ["a", "b"]).encode)⟩)
          "/private/a|b").to_payload.encode) ∧
    (UmbraClient.create_conversation "a"
        (fun _ => .error (.PublishError "down")) ⟨[]⟩ "b").2 =
      .error (.PublishError "down") ∧
    (PrivateConversation.send (fun _ => .error (.PublishError "down"))
        "/private/a|b" 5 [1, 2]).result =
      .panicked "unwrap on DeliveryService send error" := by
  have h := outbound_error_propagation (fun _ => .error (.PublishError "down"))
    "/private/a|b" "a" "b" (inviteFrame ["a", "b"]) ⟨[]⟩
    (.PublishError "down") 5 [1, 2]
  exact ⟨h.1, h.2.1 rfl, h.2.2.1 rfl⟩

/-- C2: processing an inbound conversation invite registers the
conversation derived from the participant set; the net effect is
insert-if-absent: delivering the same invite envelope twice leaves
exactly one registered conversation for that participant pair, the
second delivery changes nothing, and when the conversation the code
would create is already registered the registry is left untouched. -/
theorem invite_processing_idempotent :
    ∀ (st : UmbraState) (handlers : List Unit) (self_addr : String)
      (ps : List String),
      st.get_conversation (topic_inbox_convo self_addr) =
        some (.inboxConvo (topic_inbox_convo self_addr)) →
      (st.convos.map Prod.fst).Nodup →
      ∃ st' : UmbraState,
        UmbraClient.handle_envelope st handlers
            ⟨some (InboxConversation.encrypt (inviteFrame ps)),
             topic_inbox_convo self_addr⟩ =
          .returned (.ok ⟨st', []⟩) ∧
        st'.get_conversation (topic_private_convo ps) =
          some (.privateConvo (topic_private_convo ps)) ∧
        countKey (topic_private_convo ps) st'.convos = 1 ∧
        UmbraClient.handle_envelope st' handlers
            ⟨some (InboxConversation.encrypt (inviteFrame ps)),
             topic_inbox_convo self_addr⟩ =
          .returned (.ok ⟨st', []⟩) ∧
        (st.get_conversation (topic_private_convo ps) =
            some (.privateConvo (topic_private_convo ps)) → st' = st) := by
  intro st handlers self_addr ps hinbox hnodup
  obtain ⟨l⟩ := st
  have hne : topic_private_convo ps ≠ topic_inbox_convo self_addr :=
    topic_private_ne_inbox ps self_addr
  refine ⟨⟨insertList (topic_private_convo ps)
    (.privateConvo (topic_private_convo ps)) l⟩, ?_, ?_, ?_, ?_, ?_⟩
  · simp only [UmbraClient.handle_envelope, hinbox, Convo.recv,
      inbox_recv_encrypt_invite]
    simp [inviteFrame, UmbraState.create_conversation, UmbraState.insertConvo]
  · simp [UmbraState.get_conversation, lookupList_insertList_self]
  · exact countKey_insertList _ _ _ hnodup
  · have hlook : UmbraState.get_conversation
        ⟨insertList (topic_private_convo ps)
          (.privateConvo (topic_private_convo ps)) l⟩
        (topic_inbox_convo self_addr) =
        some (.inboxConvo (topic_inbox_convo self_addr)) := by
      simp only [UmbraState.get_conversation] at hinbox ⊢
      rw [lookupList_insertList_ne _ _ _ _ hne]
      exact hinbox
    simp only [UmbraClient.handle_envelope, hlook, Convo.recv,
      inbox_recv_encrypt_invite]
    simp [inviteFrame, UmbraState.create_conversation, UmbraState.insertConvo,
      insertList_insertList]
  · intro hpres
    simp only [UmbraState.get_conversation] at hpres
    simp [insertList_of_lookupList _ _ _ hpres]

/-- C2 witness: a client registered at inbox "/inbox/me" receiving an
invite for the pair ["a", "me"]. -/
theorem invite_processing_idempotent_witness :
    (UmbraState.mk [("/inbox/me", .inboxConvo "/inbox/me")]).get_conversation
      (topic_inbox_convo "me") = some (.inboxConvo (topic_inbox_convo "me")) ∧
    ((UmbraState.mk
      [("/inbox/me", .inboxConvo "/inbox/me")]).convos.map Prod.fst).Nodup ∧
    ∃ st' : UmbraState,
      UmbraClient.handle_envelope
          ⟨[("/inbox/me", .inboxConvo "/inbox/me")]⟩ [()]
          ⟨some (InboxConversation.encrypt (inviteFrame ["a", "me"])),
           topic_inbox_convo "me"⟩ =
        .returned (.ok ⟨st', []⟩) ∧
      st'.get_conversation (topic_private_convo ["a", "me"]) =
        some (.privateConvo (topic_private_convo ["a", "me"])) ∧
      countKey (topic_private_convo ["a", "me"]) st'.convos = 1 ∧
      UmbraClient.handle_envelope st' [()]
          ⟨some (InboxConversation.encrypt (inviteFrame ["a", "me"])),
           topic_inbox_convo "me"⟩ =
        .returned (.ok ⟨st', []⟩) ∧
      ((UmbraState.mk
          [("/inbox/me", .inboxConvo "/inbox/me")]).get_conversation
          (topic_private_convo ["a", "me"]) =
        some (.privateConvo (topic_private_convo ["a", "me"])) → st' =
          ⟨[("/inbox/me", .inboxConvo "/inbox/me")]⟩) := by
  have h1 : (UmbraState.mk
      [("/inbox/me", .inboxConvo "/inbox/me")]).get_conversation
      (topic_inbox_convo "me") = some (.inboxConvo (topic_inbox_convo "me")) := by
    simp [UmbraState.get_conversation, lookupList, topic_inbox_convo]
  have h2 : ((UmbraState.mk
      [("/inbox/me", .inboxConvo "/inbox/me")]).convos.map Prod.fst).Nodup := by
    simp
  exact ⟨h1, h2,
    invite_processing_idempotent ⟨[("/inbox/me", .inboxConvo "/inbox/me")]⟩
      [()] "me" ["a", "me"] h1 h2⟩

/-- C1: every private conversation `send(tag, bytes)` (convos/private.rs)
wraps the encoded content frame in a `ReliableBytes` record before
encryption — decrypting the sent envelope's payload yields a
`ReliableBytes` whose `content` is the serialized frame — and that
record's `message_id` equals the deterministic hash of the serialized
frame. -/
theorem send_wraps_reliable_bytes :
    ∀ (ds : DS) (convo_id : String) (tag : Nat) (message : Blob),
      (PrivateConversationV1.send ds convo_id tag message).1.dsCalls =
        [((PrivateConversationV1.send ds convo_id tag message).2).encode] ∧
      ∃ (eb : EncryptedBytes) (rb : ReliableBytes),
        (PrivateConversationV1.send ds convo_id tag message).2.encrypted_bytes =
          some eb ∧
        PrivateConversationV1.decrypt eb = .returned (.ok rb) ∧
        rb.content = some (PrivateV1Frame.encode
          ⟨convo_id, some (.Content ⟨0, tag, message⟩)⟩) ∧
        rb.message_id = hash_to_string (PrivateV1Frame.encode
          ⟨convo_id, some (.Content ⟨0, tag, message⟩)⟩) ∧
        rb.channel_id = convo_id ∧
        PrivateV1Frame.decode (PrivateV1Frame.encode
            ⟨convo_id, some (.Content ⟨0, tag, message⟩)⟩) =
          some ⟨convo_id, some (.Content ⟨0, tag, message⟩)⟩ := by
  intro ds convo_id tag message
  have hcalls : (PrivateConversationV1.send ds convo_id tag message).1.dsCalls =
      [((PrivateConversationV1.send ds convo_id tag message).2).encode] := by
    simp only [PrivateConversationV1.send]
    split <;> rfl
  have henv : (PrivateConversationV1.send ds convo_id tag message).2 =
      (PrivateConversationV1.encrypt (ReliableBytes.encode
        ⟨hash_to_string (PrivateV1Frame.encode
            ⟨convo_id, some (.Content ⟨0, tag, message⟩)⟩),
          convo_id, 0, [], [],
          some (PrivateV1Frame.encode
            ⟨convo_id, some (.Content ⟨0, tag, message⟩)⟩)⟩)).to_envelope
        convo_id 0 := by
    simp only [PrivateConversationV1.send]
    split <;> rfl
  refine ⟨hcalls,
    PrivateConversationV1.encrypt (ReliableBytes.encode
      ⟨hash_to_string (PrivateV1Frame.encode
          ⟨convo_id, some (.Content ⟨0, tag, message⟩)⟩),
        convo_id, 0, [], [],
        some (PrivateV1Frame.encode
          ⟨convo_id, some (.Content ⟨0, tag, message⟩)⟩)⟩),
    ⟨hash_to_string (PrivateV1Frame.encode
        ⟨convo_id, some (.Content ⟨0, tag, message⟩)⟩),
      convo_id, 0, [], [],
      some (PrivateV1Frame.encode
        ⟨convo_id, some (.Content ⟨0, tag, message⟩)⟩)⟩,
    ?_, ?_, rfl, rfl, rfl, PrivateV1Frame.decode_encode_frame_v1 _⟩
  · rw [henv]
    rfl
  · simp [PrivateConversationV1.decrypt, PrivateConversationV1.encrypt,
      ReliableBytes.decode_encode_rb]
